import Mathlib

/-! Verification of the natural-language specification of `get_twitch_vods.py`
against a shallow embedding of its code.

Python strings are modelled as lists of characters (`PyStr`), Python integers
as `ℤ`, Python dictionaries of fixed shape as structures with `Option` fields
for keys that may be absent, and code that can raise as `Option`-valued
functions, with `none` standing for a propagated exception.  Character-class
tests (`str.strip`, `int()` digits, `str.lower`) are modelled on ASCII, the
alphabet all the specified behaviour and all examples live in. -/

/-- Model of a Python `str` as its list of characters. -/
abbrev PyStr := List Char

/-- ASCII model of the whitespace test of Python `str.strip()`. -/
def pyIsSpace (c : Char) : Bool := decide (c.toNat = 32 ∨ (9 ≤ c.toNat ∧ c.toNat ≤ 13))

/-- ASCII decimal-digit test, the digits accepted by Python `int()`. -/
def pyIsDigit (c : Char) : Bool := decide (48 ≤ c.toNat ∧ c.toNat ≤ 57)

/-- Model of Python `str.strip()`: drop whitespace from both ends. -/
def pyStrip (s : PyStr) : PyStr :=
  ((s.dropWhile pyIsSpace).reverse.dropWhile pyIsSpace).reverse

/-- Numeric value of a list of ASCII digit characters, most significant first. -/
def digitsToNat (ds : PyStr) : ℕ := ds.foldl (fun a c => 10 * a + (c.toNat - 48)) 0

/-- The integer denoted by an already-stripped string: an optional sign
followed by decimal digits; `none` on any other shape. -/
def pyIntStripped : PyStr → Option ℤ
  | [] => none
  | c :: ds =>
    if c = '-' then
      if ds ≠ [] ∧ ds.all pyIsDigit then some (-(digitsToNat ds : ℤ)) else none
    else if c = '+' then
      if ds ≠ [] ∧ ds.all pyIsDigit then some ((digitsToNat ds : ℤ)) else none
    else if (c :: ds).all pyIsDigit then some ((digitsToNat (c :: ds) : ℤ)) else none

/-- Model of Python `int(s)` on a string: after stripping surrounding
whitespace, an optional sign followed by decimal digits; `none` models the
`ValueError` raised on any other input. -/
def pyInt (s : PyStr) : Option ℤ := pyIntStripped (pyStrip s)

/-- Model of Python `s.split(",")`; splitting the empty string gives `[""]`. -/
def splitComma : PyStr → List PyStr
  | [] => [[]]
  | c :: cs =>
    if c = ',' then [] :: splitComma cs
    else
      match splitComma cs with
      | [] => [[c]]
      | p :: ps => (c :: p) :: ps

/-- Model of Python `part.split("-", 1)` for a `part` containing a dash: the
text before the first dash and the text after it (the function is only applied
under the `"-" in part` guard, so the `[]` equation is never reached). -/
def splitFirstDash : PyStr → PyStr × PyStr
  | [] => ([], [])
  | c :: cs =>
    if c = '-' then ([], cs)
    else ((c :: (splitFirstDash cs).1), (splitFirstDash cs).2)

/-- Model of the OAuth token dict (`twitch_token.json`); fields the dict may
lack are `Option`, `none` meaning the key is absent. -/
structure Token where
  access_token : PyStr
  refresh_token : Option PyStr
  expires_in : Option ℤ
  obtained_at : Option ℤ
deriving DecidableEq

/-- Model of `token_valid(token)`: `time.time() < obtained_at + expires_in - 60`
where `token.get(..., 0)` defaults a missing field to `0`; the current time is
the explicit argument `now` (seconds since the epoch). -/
def token_valid (token : Token) (now : ℤ) : Bool :=
  decide (now < token.obtained_at.getD 0 + token.expires_in.getD 0 - 60)

/-- Model of `save_token(token)`: stamp `obtained_at = int(time.time())` and
write the result to `TOKEN_FILE`; the value returned is the value written. -/
def save_token (now : ℤ) (token : Token) : Token :=
  { token with obtained_at := some now }

/-- One token-endpoint response seen by the `device_auth` polling loop: its
HTTP status code and, when it is a 200, the token carried in its JSON body. -/
structure PollResponse where
  status : ℤ
  body : Token
deriving DecidableEq

/-- Model of the `while True` loop of `device_auth`, driven by the list of
token-endpoint responses received in order.  The first component is the token
the loop returns (`none` when the responses run out — the real loop would still
be polling), the second is the list of values written to the token store by
`save_token`, in write order. -/
def device_auth_poll (now : ℤ) : List PollResponse → Option Token × List Token
  | [] => (none, [])
  | r :: rs =>
    if r.status = 200 then
      (some (save_token now r.body), [save_token now r.body])
    else device_auth_poll now rs

/-- One VOD record as assembled in `main` (`{"channel": ..., **v}`). -/
structure Vod where
  channel : PyStr
  title : PyStr
  url : PyStr
  created_at : PyStr
deriving DecidableEq

/-- One cached fetch, the `req` dict built in option 2 of `main`. -/
structure CachedRequest where
  id : ℤ
  requested_at : PyStr
  since : PyStr
  timedelta_days : ℤ
  vods : List Vod
deriving DecidableEq

/-- The cache dict `{"requests": [...]}`. -/
structure Cache where
  requests : List CachedRequest
deriving DecidableEq

/-- The data of one fetch before an id is assigned: the `requested_at`,
`since`, `timedelta_days` and `vods` values computed in option 2 of `main`. -/
structure FetchData where
  requested_at : PyStr
  since : PyStr
  timedelta_days : ℤ
  vods : List Vod
deriving DecidableEq

/-- The request record built in `main`: its `id` is `len(cache["requests"]) + 1`,
the count before the append plus one. -/
def mkRequest (cache : Cache) (d : FetchData) : CachedRequest :=
  { id := (cache.requests.length : ℤ) + 1
    requested_at := d.requested_at
    since := d.since
    timedelta_days := d.timedelta_days
    vods := d.vods }

/-- `cache["requests"].append(req)` with the freshly built record. -/
def appendRequest (cache : Cache) (d : FetchData) : Cache :=
  { requests := cache.requests ++ [mkRequest cache d] }

/-- The empty cache `{"requests": []}` that `load_cache` yields when the cache
file is absent. -/
def emptyCache : Cache := { requests := [] }

/-- Appending a sequence of fetches one after the other, as successive runs of
option 2 of `main` do. -/
def buildCache (ds : List FetchData) : Cache := ds.foldl appendRequest emptyCache

/-- Model of the lookup loop of `show_request(cache, req_id)`: the first
request whose `id` equals `req_id`; `none` models the "Request not found."
branch. -/
def find_request (cache : Cache) (req_id : ℤ) : Option CachedRequest :=
  cache.requests.find? (fun r => r.id == req_id)

/-- JSON values as produced and consumed by `json.dumps` / `json.loads` for
this program's data (the cache holds only objects, arrays, strings and
integers; the other constructors close the JSON value space). -/
inductive Json where
  | null
  | bool (b : Bool)
  | int (n : ℤ)
  | str (s : PyStr)
  | arr (xs : List Json)
  | obj (fields : List (PyStr × Json))

/-- The JSON form of one VOD dict, keys in the insertion order of `main`. -/
def vodToJson (v : Vod) : Json :=
  Json.obj [("channel".data, Json.str v.channel),
            ("title".data, Json.str v.title),
            ("url".data, Json.str v.url),
            ("created_at".data, Json.str v.created_at)]

/-- The JSON form of one cached request, keys in the insertion order of the
`req` dict literal in `main`. -/
def requestToJson (r : CachedRequest) : Json :=
  Json.obj [("id".data, Json.int r.id),
            ("requested_at".data, Json.str r.requested_at),
            ("since".data, Json.str r.since),
            ("timedelta_days".data, Json.int r.timedelta_days),
            ("vods".data, Json.arr (r.vods.map vodToJson))]

/-- Model of `save_cache(cache)`: the JSON value written to `CACHE_FILE`.
`json.dumps(cache, indent=2)` fixes the concrete text; the indentation only
adds inter-token whitespace, so the parsed content of the file is exactly this
JSON value. -/
def save_cache (cache : Cache) : Json :=
  Json.obj [("requests".data, Json.arr (cache.requests.map requestToJson))]

/-- The value bound to key `k` in a JSON object's field list (dicts built by
`json.loads` bind each key once). -/
def jsonLookup (fields : List (PyStr × Json)) (k : PyStr) : Option Json :=
  (fields.find? (fun f => f.1 == k)).map (fun f => f.2)

/-- Read a JSON string value. -/
def jsonStr : Json → Option PyStr
  | Json.str s => some s
  | _ => none

/-- Read a JSON integer value. -/
def jsonInt : Json → Option ℤ
  | Json.int n => some n
  | _ => none

/-- Read a JSON array's elements. -/
def jsonArr : Json → Option (List Json)
  | Json.arr xs => some xs
  | _ => none

/-- Read one VOD dict back from its JSON value. -/
def vodOfJson (j : Json) : Option Vod :=
  match j with
  | Json.obj fields => do
    let ch ← jsonLookup fields "channel".data >>= jsonStr
    let t ← jsonLookup fields "title".data >>= jsonStr
    let u ← jsonLookup fields "url".data >>= jsonStr
    let ca ← jsonLookup fields "created_at".data >>= jsonStr
    some { channel := ch, title := t, url := u, created_at := ca }
  | _ => none

/-- Read a list of VOD dicts back from JSON values. -/
def vodsOfJson : List Json → Option (List Vod)
  | [] => some []
  | j :: js => do
    let v ← vodOfJson j
    let vs ← vodsOfJson js
    some (v :: vs)

/-- Read one cached request back from its JSON value. -/
def requestOfJson (j : Json) : Option CachedRequest :=
  match j with
  | Json.obj fields => do
    let i ← jsonLookup fields "id".data >>= jsonInt
    let ra ← jsonLookup fields "requested_at".data >>= jsonStr
    let si ← jsonLookup fields "since".data >>= jsonStr
    let td ← jsonLookup fields "timedelta_days".data >>= jsonInt
    let vj ← jsonLookup fields "vods".data >>= jsonArr
    let vs ← vodsOfJson vj
    some { id := i, requested_at := ra, since := si, timedelta_days := td, vods := vs }
  | _ => none

/-- Read a list of cached requests back from JSON values. -/
def requestsOfJson : List Json → Option (List CachedRequest)
  | [] => some []
  | j :: js => do
    let r ← requestOfJson j
    let rs ← requestsOfJson js
    some (r :: rs)

/-- Model of `load_cache()` on a present cache file: `json.loads` recovers the
JSON value of the file, read back here into the cache's data model. -/
def load_cache (j : Json) : Option Cache :=
  match j with
  | Json.obj fields => do
    let rj ← jsonLookup fields "requests".data >>= jsonArr
    let rs ← requestsOfJson rj
    some { requests := rs }
  | _ => none

/-- One step of the `for part in selection.split(",")` loop of
`parse_selection`, acting on the `chosen` set. -/
def selectionStep (chosen : Finset ℤ) (part0 : PyStr) : Option (Finset ℤ) :=
  let part := pyStrip part0
  if part = [] then some chosen
  else if '-' ∈ part then
    match pyInt (splitFirstDash part).1, pyInt (splitFirstDash part).2 with
    | some a, some b => some (chosen ∪ Finset.Icc a b)
    | _, _ => none
  else
    match pyInt part with
    | some n => some (insert n chosen)
    | none => none

/-- The whole `for` loop of `parse_selection` over the split parts. -/
def selectionFold (chosen : Finset ℤ) : List PyStr → Option (Finset ℤ)
  | [] => some chosen
  | p :: ps =>
    match selectionStep chosen p with
    | some c => selectionFold c ps
    | none => none

/-- Model of `parse_selection(selection, max_index)`.  The final Python list
comprehension enumerates `chosen` (a set) in unspecified order, so its content
is the returned `Finset`; `none` models a propagated `ValueError`. -/
def parse_selection (selection : PyStr) (max_index : ℕ) : Option (Finset ℤ) :=
  (selectionFold ∅ (splitComma selection)).map
    (fun chosen => chosen.filter (fun i => 1 ≤ i ∧ i ≤ (max_index : ℤ)))

/-- ASCII model of Python `str.lower()` (`Char.toLower` lowercases exactly the
letters `A`-`Z`). -/
def py_lower (s : PyStr) : PyStr := s.map Char.toLower

/-- Model of `filter_vods(vods, include)`.  `none` is Python's `None` default;
`if not include` makes both `None` and an empty list mean "no filter", and
otherwise membership of the lowercased channel in the lowercased include set
keeps a VOD. -/
def filter_vods (vods : List Vod) (inc : Option (List PyStr)) : List Vod :=
  match inc with
  | none => vods
  | some names =>
    if names = [] then vods
    else vods.filter (fun v => decide (py_lower v.channel ∈ names.map py_lower))

/-- Model of `days = int(input("How many days back? "))` in option 2 of
`main`: a strict `int` parse whose failure (`none`) propagates unhandled. -/
def read_days (s : PyStr) : Option ℤ := pyInt s

/-- Model of `since = utcnow() - timedelta(days=days)` composed with the
day-count parse: the lookback instant in seconds, `none` when the input does
not parse. -/
def new_fetch_since (now : ℤ) (s : PyStr) : Option ℤ :=
  (read_days s).map (fun d => now - d * 86400)

/-- Model of `req_id = int(input("Request ID: "))` in option 4 of `main`: the
same strict `int` parse. -/
def read_request_id (s : PyStr) : Option ℤ := pyInt s

/-- A well-formed selection token of the claim's grammar: one integer, or a
dash-range `a-b`. -/
inductive SelTok where
  | single (n : ℕ)
  | range (a b : ℕ)

/-- Decimal rendering of a natural number, most significant digit first. -/
def natDigits (n : ℕ) : PyStr :=
  if n < 10 then [Nat.digitChar n]
  else natDigits (n / 10) ++ [Nat.digitChar (n % 10)]
decreasing_by exact Nat.div_lt_self (by omega) (by omega)

/-- The text of one selection token. -/
def renderTok : SelTok → PyStr
  | SelTok.single n => natDigits n
  | SelTok.range a b => natDigits a ++ '-' :: natDigits b

/-- The comma-separated selection string for a list of tokens. -/
def renderSel : List SelTok → PyStr
  | [] => []
  | [t] => renderTok t
  | t :: ts => renderTok t ++ ',' :: renderSel ts

/-- The integers one selection token stands for, on the claim's reading: the
integer itself, or every integer of the inclusive range `a..b` (empty when
`a > b`). -/
def tokSet : SelTok → Finset ℤ
  | SelTok.single n => {(n : ℤ)}
  | SelTok.range a b => Finset.Icc (a : ℤ) (b : ℤ)

/-- The union of the integers listed by a token list. -/
def selSpecUnion : List SelTok → Finset ℤ
  | [] => ∅
  | t :: ts => tokSet t ∪ selSpecUnion ts

/-- The claim's specified value of `parse_selection`: the listed integers,
deduplicated and restricted to `[1, maxIndex]`. -/
def selSpec (toks : List SelTok) (maxIndex : ℕ) : Finset ℤ :=
  (selSpecUnion toks).filter (fun i => 1 ≤ i ∧ i ≤ (maxIndex : ℤ))

/-- The record that the fetch appended at 0-based position `n` receives. -/
def assignedRequest (n : ℕ) (d : FetchData) : CachedRequest :=
  { id := (n : ℤ) + 1
    requested_at := d.requested_at
    since := d.since
    timedelta_days := d.timedelta_days
    vods := d.vods }

/-- The requests list produced by appending fetches starting at 0-based
position `n`. -/
def assignFrom (n : ℕ) : List FetchData → List CachedRequest
  | [] => []
  | d :: ds => assignedRequest n d :: assignFrom (n + 1) ds

/-! Helper lemmas about the character-level models. -/

theorem pyIsSpace_of_digit {c : Char} (h48 : 48 ≤ c.toNat) (h57 : c.toNat ≤ 57) :
    pyIsSpace c = false := by
  simp only [pyIsSpace, decide_eq_false_iff_not]
  omega

theorem pyIsDigit_of_digit {c : Char} (h48 : 48 ≤ c.toNat) (h57 : c.toNat ≤ 57) :
    pyIsDigit c = true := by
  simp only [pyIsDigit, decide_eq_true_eq]
  omega

theorem ne_dash_of_digit {c : Char} (h48 : 48 ≤ c.toNat) : c ≠ '-' := by
  intro h
  rw [h] at h48
  have h45 : ('-').toNat = 45 := rfl
  omega

theorem ne_plus_of_digit {c : Char} (h48 : 48 ≤ c.toNat) : c ≠ '+' := by
  intro h
  rw [h] at h48
  have h43 : ('+').toNat = 43 := rfl
  omega

theorem not_comma_of_digits {s : PyStr} (hd : ∀ c ∈ s, 48 ≤ c.toNat ∧ c.toNat ≤ 57) :
    ',' ∉ s := by
  intro hm
  have h := hd _ hm
  have h44 : (',').toNat = 44 := rfl
  omega

theorem dropWhile_eq_self_of_not (p : Char → Bool) (s : PyStr)
    (h : ∀ c ∈ s, p c = false) : s.dropWhile p = s := by
  cases s with
  | nil => rfl
  | cons c cs => simp [List.dropWhile_cons, h c (List.mem_cons_self c cs)]

theorem pyStrip_eq_self (s : PyStr) (h : ∀ c ∈ s, pyIsSpace c = false) :
    pyStrip s = s := by
  unfold pyStrip
  rw [dropWhile_eq_self_of_not _ _ h]
  rw [dropWhile_eq_self_of_not _ _ (fun c hc => h c (List.mem_reverse.mp hc))]
  exact List.reverse_reverse s

theorem pyStrip_of_digits (s : PyStr)
    (hd : ∀ c ∈ s, 48 ≤ c.toNat ∧ c.toNat ≤ 57) : pyStrip s = s :=
  pyStrip_eq_self s (fun c hc => pyIsSpace_of_digit (hd c hc).1 (hd c hc).2)

theorem pyInt_all_digits (s : PyStr) (hne : s ≠ [])
    (hd : ∀ c ∈ s, 48 ≤ c.toNat ∧ c.toNat ≤ 57) :
    pyInt s = some ((digitsToNat s : ℕ) : ℤ) := by
  unfold pyInt
  rw [pyStrip_of_digits s hd]
  cases s with
  | nil => exact absurd rfl hne
  | cons c cs =>
    have hc := hd c (List.mem_cons_self c cs)
    simp only [pyIntStripped]
    rw [if_neg (ne_dash_of_digit hc.1), if_neg (ne_plus_of_digit hc.1)]
    rw [if_pos]
    exact List.all_eq_true.mpr (fun x hx => pyIsDigit_of_digit (hd x hx).1 (hd x hx).2)

/-! Lemmas about the decimal rendering of naturals. -/

theorem natDigits_ne_nil (n : ℕ) : natDigits n ≠ [] := by
  induction n using natDigits.induct with
  | case1 n h => rw [natDigits]; simp [h]
  | case2 n h ih => rw [natDigits]; simp [h]

theorem natDigits_bounds (n : ℕ) : ∀ c ∈ natDigits n, 48 ≤ c.toNat ∧ c.toNat ≤ 57 := by
  induction n using natDigits.induct with
  | case1 n h =>
    rw [natDigits]
    simp only [if_pos h]
    intro c hc
    simp only [List.mem_singleton] at hc
    subst hc
    interval_cases n <;> decide
  | case2 n h ih =>
    rw [natDigits]
    simp only [if_neg h]
    intro c hc
    rcases List.mem_append.mp hc with h1 | h1
    · exact ih c h1
    · simp only [List.mem_singleton] at h1
      subst h1
      have hm : n % 10 < 10 := Nat.mod_lt _ (by omega)
      interval_cases hh : (n % 10) <;> decide

theorem digitsToNat_natDigits (n : ℕ) : digitsToNat (natDigits n) = n := by
  induction n using natDigits.induct with
  | case1 n h =>
    rw [natDigits]
    simp only [if_pos h, digitsToNat, List.foldl_cons, List.foldl_nil]
    interval_cases n <;> decide
  | case2 n h ih =>
    rw [natDigits]
    simp only [if_neg h]
    simp only [digitsToNat, List.foldl_append, List.foldl_cons, List.foldl_nil] at *
    rw [ih]
    have hm : n % 10 < 10 := Nat.mod_lt _ (by omega)
    have hv : (Nat.digitChar (n % 10)).toNat = 48 + n % 10 := by
      interval_cases hh : (n % 10) <;> decide
    omega

theorem pyInt_natDigits (n : ℕ) : pyInt (natDigits n) = some ((n : ℕ) : ℤ) := by
  rw [pyInt_all_digits (natDigits n) (natDigits_ne_nil n) (natDigits_bounds n)]
  rw [digitsToNat_natDigits]

/-! Lemmas about the split models. -/

theorem splitComma_of_no_comma (s : PyStr) (h : ',' ∉ s) : splitComma s = [s] := by
  induction s with
  | nil => rfl
  | cons c cs ih =>
    have hc : ¬(c = ',') := fun he => h (he ▸ List.mem_cons_self c cs)
    simp only [splitComma]
    rw [if_neg hc, ih (fun hm => h (List.mem_cons_of_mem c hm))]

theorem splitComma_append (p s : PyStr) (h : ',' ∉ p) :
    splitComma (p ++ ',' :: s) = p :: splitComma s := by
  induction p with
  | nil => simp [splitComma]
  | cons c p ih =>
    have hc : ¬(c = ',') := fun he => h (he ▸ List.mem_cons_self c p)
    have ih2 := ih (fun hm => h (List.mem_cons_of_mem c hm))
    simp only [List.cons_append, splitComma, List.append_eq, hc, if_false, ih2]

theorem splitFirstDash_append (a b : PyStr) (h : '-' ∉ a) :
    splitFirstDash (a ++ '-' :: b) = (a, b) := by
  induction a with
  | nil => simp [splitFirstDash]
  | cons c a ih =>
    have hc : ¬(c = '-') := fun he => h (he ▸ List.mem_cons_self c a)
    have ih2 := ih (fun hm => h (List.mem_cons_of_mem c hm))
    simp only [List.cons_append, splitFirstDash, List.append_eq, hc, if_false, ih2]

/-! Lemmas about the rendering of selection tokens. -/

theorem renderTok_ne_nil (t : SelTok) : renderTok t ≠ [] := by
  cases t with
  | single n => exact natDigits_ne_nil n
  | range a b =>
    simp only [renderTok]
    intro h
    exact natDigits_ne_nil a (List.append_eq_nil.mp h).1

theorem renderTok_no_comma (t : SelTok) : ',' ∉ renderTok t := by
  cases t with
  | single n => exact not_comma_of_digits (natDigits_bounds n)
  | range a b =>
    simp only [renderTok]
    intro hm
    rcases List.mem_append.mp hm with h1 | h1
    · exact not_comma_of_digits (natDigits_bounds a) h1
    · rcases List.mem_cons.mp h1 with h2 | h2
      · exact absurd h2.symm (by decide)
      · exact not_comma_of_digits (natDigits_bounds b) h2

theorem renderTok_no_space (t : SelTok) : ∀ c ∈ renderTok t, pyIsSpace c = false := by
  cases t with
  | single n =>
    intro c hc
    have h := natDigits_bounds n c hc
    exact pyIsSpace_of_digit h.1 h.2
  | range a b =>
    intro c hc
    simp only [renderTok] at hc
    rcases List.mem_append.mp hc with h1 | h1
    · have h := natDigits_bounds a c h1
      exact pyIsSpace_of_digit h.1 h.2
    · rcases List.mem_cons.mp h1 with h2 | h2
      · rw [h2]; decide
      · have h := natDigits_bounds b c h2
        exact pyIsSpace_of_digit h.1 h.2

theorem selectionStep_renderTok (chosen : Finset ℤ) (t : SelTok) :
    selectionStep chosen (renderTok t) = some (chosen ∪ tokSet t) := by
  cases t with
  | single n =>
    unfold selectionStep
    rw [pyStrip_eq_self _ (renderTok_no_space (SelTok.single n))]
    rw [if_neg (renderTok_ne_nil (SelTok.single n))]
    have hdash : ¬('-' ∈ renderTok (SelTok.single n)) := by
      intro hm
      have h := natDigits_bounds n '-' hm
      have h45 : ('-').toNat = 45 := rfl
      omega
    rw [if_neg hdash]
    show (match pyInt (renderTok (SelTok.single n)) with
          | some m => some (insert m chosen)
          | none => none) = some (chosen ∪ tokSet (SelTok.single n))
    rw [show renderTok (SelTok.single n) = natDigits n from rfl, pyInt_natDigits]
    show some (insert ((n : ℕ) : ℤ) chosen) = some (chosen ∪ {((n : ℕ) : ℤ)})
    rw [Finset.union_comm, ← Finset.insert_eq]
  | range a b =>
    unfold selectionStep
    rw [pyStrip_eq_self _ (renderTok_no_space (SelTok.range a b))]
    rw [if_neg (renderTok_ne_nil (SelTok.range a b))]
    have hdash : '-' ∈ renderTok (SelTok.range a b) := by
      simp only [renderTok]
      exact List.mem_append.mpr (Or.inr (List.mem_cons_self _ _))
    rw [if_pos hdash]
    have hnoa : '-' ∉ natDigits a := by
      intro hm
      have h := natDigits_bounds a '-' hm
      have h45 : ('-').toNat = 45 := rfl
      omega
    show (match pyInt (splitFirstDash (renderTok (SelTok.range a b))).1,
               pyInt (splitFirstDash (renderTok (SelTok.range a b))).2 with
          | some x, some y => some (chosen ∪ Finset.Icc x y)
          | _, _ => none) = some (chosen ∪ tokSet (SelTok.range a b))
    rw [show renderTok (SelTok.range a b) = natDigits a ++ '-' :: natDigits b from rfl]
    rw [splitFirstDash_append _ _ hnoa]
    show (match pyInt (natDigits a), pyInt (natDigits b) with
          | some x, some y => some (chosen ∪ Finset.Icc x y)
          | _, _ => none) = some (chosen ∪ tokSet (SelTok.range a b))
    rw [pyInt_natDigits, pyInt_natDigits]
    rfl

theorem selectionFold_renderSel (toks : List SelTok) :
    ∀ chosen, selectionFold chosen (splitComma (renderSel toks)) =
      some (chosen ∪ selSpecUnion toks) := by
  induction toks with
  | nil =>
    intro chosen
    show selectionFold chosen [[]] = some (chosen ∪ selSpecUnion [])
    simp [selectionFold, selectionStep, pyStrip, selSpecUnion]
  | cons t ts ih =>
    intro chosen
    cases ts with
    | nil =>
      rw [show renderSel [t] = renderTok t from rfl,
        splitComma_of_no_comma _ (renderTok_no_comma t)]
      simp only [selectionFold, selectionStep_renderTok]
      simp only [selSpecUnion, Finset.union_empty]
    | cons t2 ts2 =>
      rw [show renderSel (t :: t2 :: ts2) = renderTok t ++ ',' :: renderSel (t2 :: ts2)
          from rfl]
      rw [splitComma_append _ _ (renderTok_no_comma t)]
      simp only [selectionFold, selectionStep_renderTok]
      rw [ih]
      rw [show selSpecUnion (t :: t2 :: ts2) = tokSet t ∪ selSpecUnion (t2 :: ts2)
          from rfl]
      rw [Finset.union_assoc]

/-- C1: for every selection string made of comma-separated tokens that are
single integers or dash-ranges `a-b`, `parse_selection` yields the
deduplicated set of the listed integers together with every integer of each
inclusive range (a reversed range contributing nothing), restricted to
`[1, max_index]` with out-of-range indices silently dropped; in particular
`parse_selection "1,3-5" 10 = {1,3,4,5}`, `parse_selection "1,3-5" 4 =
{1,3,4}`, and `parse_selection "" n = ∅`. -/
theorem claim_C1_parse_selection :
    (∀ (toks : List SelTok) (maxIndex : ℕ),
        parse_selection (renderSel toks) maxIndex = some (selSpec toks maxIndex)) ∧
    parse_selection "1,3-5".data 10 = some {1, 3, 4, 5} ∧
    parse_selection "1,3-5".data 4 = some {1, 3, 4} ∧
    (∀ n : ℕ, parse_selection "".data n = some ∅) := by
  refine ⟨?_, by decide, by decide, ?_⟩
  · intro toks maxIndex
    unfold parse_selection
    rw [selectionFold_renderSel toks ∅]
    rw [Finset.empty_union]
    rfl
  · intro n
    show (selectionFold ∅ [[]]).map _ = some ∅
    simp [selectionFold, selectionStep, pyStrip]

/-- C2: for every token with both `obtained_at` and `expires_in` present and
every current time `now`, `token_valid` is false exactly when
`now >= obtained_at + expires_in - 60` and true otherwise. -/
theorem claim_C2_token_valid :
    ∀ (a : PyStr) (rt : Option PyStr) (ei oa now : ℤ),
      (token_valid { access_token := a, refresh_token := rt,
                     expires_in := some ei, obtained_at := some oa } now = false ↔
        oa + ei - 60 ≤ now) ∧
      (token_valid { access_token := a, refresh_token := rt,
                     expires_in := some ei, obtained_at := some oa } now = true ↔
        now < oa + ei - 60) := by
  intro a rt ei oa now
  unfold token_valid
  constructor
  · rw [decide_eq_false_iff_not]
    show ¬(now < (some oa).getD 0 + (some ei).getD 0 - 60) ↔ _
    rw [Option.getD_some, Option.getD_some]
    omega
  · rw [decide_eq_true_eq]
    show (now < (some oa).getD 0 + (some ei).getD 0 - 60) ↔ _
    rw [Option.getD_some, Option.getD_some]

/-- C9: `token_valid` treats a missing `expires_in` or `obtained_at` field as 0
and returns a boolean without raising; a token missing both fields is reported
invalid at every (nonnegative, i.e. post-epoch) current time. -/
theorem claim_C9_missing_token_fields :
    ∀ (a : PyStr) (rt : Option PyStr) (now : ℤ),
      (∀ oa : ℤ,
        token_valid { access_token := a, refresh_token := rt,
                      expires_in := none, obtained_at := some oa } now =
        token_valid { access_token := a, refresh_token := rt,
                      expires_in := some 0, obtained_at := some oa } now) ∧
      (∀ ei : ℤ,
        token_valid { access_token := a, refresh_token := rt,
                      expires_in := some ei, obtained_at := none } now =
        token_valid { access_token := a, refresh_token := rt,
                      expires_in := some ei, obtained_at := some 0 } now) ∧
      (token_valid { access_token := a, refresh_token := rt,
                     expires_in := none, obtained_at := none } now =
        token_valid { access_token := a, refresh_token := rt,
                      expires_in := some 0, obtained_at := some 0 } now) ∧
      (0 ≤ now →
        token_valid { access_token := a, refresh_token := rt,
                      expires_in := none, obtained_at := none } now = false) := by
  intro a rt now
  refine ⟨fun oa => rfl, fun ei => rfl, rfl, fun h => ?_⟩
  simp only [token_valid, Option.getD_none, decide_eq_false_iff_not]
  omega

/-- Witness for C9 at a concrete post-epoch time. -/
theorem claim_C9_witness :
    token_valid { access_token := [], refresh_token := none,
                  expires_in := none, obtained_at := none } 5 = false :=
  (claim_C9_missing_token_fields [] none 5).2.2.2 (by decide)

/-- C5: in the device-code polling loop, for every response sequence of
non-200 statuses followed by a first HTTP 200, the token store is written
exactly once, only at the successful poll, and the (persisted) token of that
response is returned; a run of non-200 polls alone performs no write. -/
theorem claim_C5_poll_single_write :
    ∀ (now : ℤ) (pre : List PollResponse) (ok : PollResponse) (rest : List PollResponse),
      (∀ r ∈ pre, r.status ≠ 200) → ok.status = 200 →
      device_auth_poll now (pre ++ ok :: rest) =
        (some (save_token now ok.body), [save_token now ok.body]) ∧
      device_auth_poll now pre = (none, []) := by
  intro now pre ok rest hpre hok
  induction pre with
  | nil =>
    constructor
    · show device_auth_poll now (ok :: rest) = _
      simp only [device_auth_poll]
      rw [if_pos hok]
    · rfl
  | cons r pre ih =>
    have hr : ¬(r.status = 200) := hpre r (List.mem_cons_self r pre)
    have ih2 := ih (fun x hx => hpre x (List.mem_cons_of_mem r hx))
    constructor
    · show device_auth_poll now (r :: (pre ++ ok :: rest)) = _
      simp only [device_auth_poll]
      rw [if_neg hr]
      exact ih2.1
    · show device_auth_poll now (r :: pre) = _
      simp only [device_auth_poll]
      rw [if_neg hr]
      exact ih2.2

/-- Witness for C5: two 400 responses then a 200. -/
theorem claim_C5_witness :
    device_auth_poll 7
        [{ status := 400, body := { access_token := [], refresh_token := none,
                                    expires_in := none, obtained_at := none } },
         { status := 400, body := { access_token := [], refresh_token := none,
                                    expires_in := none, obtained_at := none } },
         { status := 200, body := { access_token := ['t'], refresh_token := none,
                                    expires_in := some 3600, obtained_at := none } }] =
      (some (save_token 7 { access_token := ['t'], refresh_token := none,
                            expires_in := some 3600, obtained_at := none }),
       [save_token 7 { access_token := ['t'], refresh_token := none,
                       expires_in := some 3600, obtained_at := none }]) :=
  (claim_C5_poll_single_write 7
    [{ status := 400, body := { access_token := [], refresh_token := none,
                                expires_in := none, obtained_at := none } },
     { status := 400, body := { access_token := [], refresh_token := none,
                                expires_in := none, obtained_at := none } }]
    { status := 200, body := { access_token := ['t'], refresh_token := none,
                               expires_in := some 3600, obtained_at := none } }
    [] (by decide) rfl).1

/-- C6 counterexample: the new-fetch path parses the day count strictly; on the
invalid input "abc" the parse fails and the error propagates (`none`) — no
default of 3 days is substituted — and the out-of-range input "-5" is accepted
as-is rather than being replaced by 3. -/
theorem claim_C6_counterexample :
    read_days "abc".data = none ∧ read_days "abc".data ≠ some 3 ∧
    read_days "-5".data = some (-5) ∧ read_days "-5".data ≠ some 3 :=
  ⟨by decide, by decide, by decide, by decide⟩

/-- C6 (amended): day-count input in the new-fetch path is parsed strictly by
`int()` exactly like the request-id input: a value that parses is used as-is
in `since = now - days`, and a value that does not parse propagates an
unhandled error; no default of 3 days exists. -/
theorem claim_C6_strict_day_count :
    (∀ s : PyStr, read_days s = pyInt s) ∧
    (∀ (now : ℤ) (s : PyStr), read_days s = none → new_fetch_since now s = none) ∧
    (∀ (now d : ℤ) (s : PyStr), read_days s = some d →
      new_fetch_since now s = some (now - d * 86400)) ∧
    (∀ s : PyStr, read_request_id s = pyInt s) := by
  refine ⟨fun s => rfl, ?_, ?_, fun s => rfl⟩
  · intro now s h
    simp [new_fetch_since, h]
  · intro now d s h
    simp [new_fetch_since, h]

/-- Witness for C6 (amended) on concrete inputs. -/
theorem claim_C6_witness :
    new_fetch_since 0 "abc".data = none ∧
    new_fetch_since 1000000 "2".data = some (1000000 - 2 * 86400) :=
  ⟨claim_C6_strict_day_count.2.1 0 "abc".data (by decide),
   claim_C6_strict_day_count.2.2.1 1000000 2 "2".data (by decide)⟩

/-- C7: filtering with no filter is the identity: `filter_vods` returns the
input sequence unchanged for an absent (`None`) and for an empty include set. -/
theorem claim_C7_filter_no_filter :
    ∀ vods : List Vod,
      filter_vods vods none = vods ∧ filter_vods vods (some []) = vods :=
  fun _ => ⟨rfl, rfl⟩

/-- C8: for a non-empty include set, `filter_vods` keeps exactly the VODs
whose channel matches some include entry case-insensitively; in particular a
VOD with channel "alice" is kept when the include set contains "Alice". -/
theorem claim_C8_filter_case_insensitive :
    ∀ (vods : List Vod) (names : List PyStr), names ≠ [] →
      (filter_vods vods (some names) =
        vods.filter (fun v => decide (∃ c ∈ names, py_lower v.channel = py_lower c))) ∧
      (∀ v ∈ vods, v.channel = "alice".data → "Alice".data ∈ names →
        v ∈ filter_vods vods (some names)) := by
  intro vods names hne
  have hmain : filter_vods vods (some names) =
      vods.filter (fun v => decide (∃ c ∈ names, py_lower v.channel = py_lower c)) := by
    show (if names = [] then vods
          else vods.filter (fun v => decide (py_lower v.channel ∈ names.map py_lower))) = _
    rw [if_neg hne]
    apply List.filter_congr
    intro v hv
    simp only [decide_eq_decide]
    rw [List.mem_map]
    constructor
    · rintro ⟨c, hc, he⟩
      exact ⟨c, hc, he.symm⟩
    · rintro ⟨c, hc, he⟩
      exact ⟨c, hc, he.symm⟩
  refine ⟨hmain, ?_⟩
  intro v hv hch hAl
  rw [hmain, List.mem_filter]
  refine ⟨hv, ?_⟩
  rw [decide_eq_true_eq]
  refine ⟨"Alice".data, hAl, ?_⟩
  rw [hch]
  decide

/-- Witness for C8: the lowercase-"alice" VOD is kept by include set
`["Alice"]`. -/
theorem claim_C8_witness :
    ({ channel := "alice".data, title := [], url := [], created_at := [] } : Vod) ∈
      filter_vods [({ channel := "alice".data, title := [], url := [], created_at := [] } : Vod)]
        (some ["Alice".data]) :=
  (claim_C8_filter_case_insensitive
      [({ channel := "alice".data, title := [], url := [], created_at := [] } : Vod)]
      ["Alice".data] (by decide)).2
    ({ channel := "alice".data, title := [], url := [], created_at := [] } : Vod)
    (List.mem_singleton.mpr rfl) rfl (List.mem_singleton.mpr rfl)

/-- C10: for every non-empty include set, the output of `filter_vods` is a
sublist of the input: kept records are unmodified and keep their relative
order. -/
theorem claim_C10_filter_sublist :
    ∀ (vods : List Vod) (names : List PyStr), names ≠ [] →
      List.Sublist (filter_vods vods (some names)) vods := by
  intro vods names hne
  show List.Sublist
    (if names = [] then vods
     else vods.filter (fun v => decide (py_lower v.channel ∈ names.map py_lower))) vods
  rw [if_neg hne]
  exact List.filter_sublist vods

/-- Witness for C10 on a concrete one-element list. -/
theorem claim_C10_witness :
    List.Sublist
      (filter_vods [({ channel := "bob".data, title := [], url := [], created_at := [] } : Vod)]
        (some ["Alice".data]))
      [({ channel := "bob".data, title := [], url := [], created_at := [] } : Vod)] :=
  claim_C10_filter_sublist
    [({ channel := "bob".data, title := [], url := [], created_at := [] } : Vod)]
    ["Alice".data] (by decide)

/-! Lemmas about cache appends and lookups. -/

theorem foldl_appendRequest_requests (ds : List FetchData) :
    ∀ c : Cache, (ds.foldl appendRequest c).requests =
      c.requests ++ assignFrom c.requests.length ds := by
  induction ds with
  | nil =>
    intro c
    simp [assignFrom]
  | cons d ds ih =>
    intro c
    rw [List.foldl_cons, ih (appendRequest c d)]
    show (c.requests ++ [mkRequest c d]) ++
        assignFrom (c.requests ++ [mkRequest c d]).length ds =
      c.requests ++ assignFrom c.requests.length (d :: ds)
    rw [List.length_append, List.append_assoc, List.singleton_append]
    rfl

theorem buildCache_requests (ds : List FetchData) :
    (buildCache ds).requests = assignFrom 0 ds := by
  unfold buildCache
  rw [foldl_appendRequest_requests ds emptyCache]
  rfl

theorem assignFrom_map_id (ds : List FetchData) :
    ∀ n : ℕ, (assignFrom n ds).map (fun r => r.id) =
      (List.range' (n + 1) ds.length).map Int.ofNat := by
  induction ds with
  | nil => intro n; rfl
  | cons d ds ih =>
    intro n
    show ((n : ℤ) + 1) :: (assignFrom (n + 1) ds).map (fun r => r.id) =
      (List.range' (n + 1) (ds.length + 1)).map Int.ofNat
    rw [ih (n + 1), List.range'_succ, List.map_cons]
    rfl

theorem assignFrom_find_eq (ds : List FetchData) :
    ∀ (n k : ℕ) (h : k < ds.length) (i : ℤ), i = (n : ℤ) + (k : ℤ) + 1 →
      (assignFrom n ds).find? (fun r => r.id == i) =
        some (assignedRequest (n + k) (ds.get ⟨k, h⟩)) := by
  induction ds with
  | nil =>
    intro n k h i hi
    exact absurd h (by simp)
  | cons d ds ih =>
    intro n k h i hi
    cases k with
    | zero =>
      show List.find? (fun r => r.id == i) (assignedRequest n d :: assignFrom (n + 1) ds) =
        some (assignedRequest (n + 0) d)
      rw [List.find?_cons_of_pos]
      · rfl
      · show ((assignedRequest n d).id == i) = true
        simp only [assignedRequest, hi, beq_iff_eq]
        push_cast
        ring
    | succ k' =>
      have hk : k' < ds.length := Nat.lt_of_succ_lt_succ h
      have harith : n + (k' + 1) = (n + 1) + k' := by omega
      show List.find? (fun r => r.id == i) (assignedRequest n d :: assignFrom (n + 1) ds) =
        some (assignedRequest (n + (k' + 1)) (ds.get ⟨k', hk⟩))
      rw [harith]
      rw [List.find?_cons_of_neg]
      · exact ih (n + 1) k' hk i (by rw [hi]; push_cast; ring)
      · show ¬((assignedRequest n d).id == i) = true
        simp only [assignedRequest, hi, beq_iff_eq]
        push_cast
        intro hcon
        omega

theorem assignFrom_id_bounds (ds : List FetchData) :
    ∀ n : ℕ, ∀ r ∈ assignFrom n ds, (n : ℤ) + 1 ≤ r.id ∧ r.id ≤ (n : ℤ) + ds.length := by
  induction ds with
  | nil =>
    intro n r hr
    exact absurd hr (by simp [assignFrom])
  | cons d ds ih =>
    intro n r hr
    simp only [assignFrom] at hr
    rcases List.mem_cons.mp hr with h1 | h1
    · subst h1
      show (n : ℤ) + 1 ≤ (n : ℤ) + 1 ∧ (n : ℤ) + 1 ≤ (n : ℤ) + ((d :: ds).length : ℤ)
      simp only [List.length_cons]
      push_cast
      omega
    · have hb := ih (n + 1) r h1
      simp only [List.length_cons]
      push_cast at hb ⊢
      omega

theorem assignFrom_find_none (ds : List FetchData) (n : ℕ) (i : ℤ)
    (h : i < (n : ℤ) + 1 ∨ (n : ℤ) + ds.length < i) :
    (assignFrom n ds).find? (fun r => r.id == i) = none := by
  rw [List.find?_eq_none]
  intro r hr
  have hb := assignFrom_id_bounds ds n r hr
  simp only [beq_iff_eq]
  omega

/-- C3: appending N fetches to an initially empty cache assigns ids `1..N` in
append order (each id the count before the append plus one), and the
`show_request` lookup finds the matching record for every assigned id and
reports not-found for every unassigned id. -/
theorem claim_C3_cache_ids :
    ∀ ds : List FetchData,
      ((buildCache ds).requests.map (fun r => r.id) =
        (List.range' 1 ds.length).map Int.ofNat) ∧
      (∀ (k : ℕ) (h : k < ds.length),
        find_request (buildCache ds) ((k : ℤ) + 1) =
          some (assignedRequest k (ds.get ⟨k, h⟩))) ∧
      (∀ i : ℤ, (i < 1 ∨ (ds.length : ℤ) < i) → find_request (buildCache ds) i = none) := by
  intro ds
  refine ⟨?_, ?_, ?_⟩
  · rw [buildCache_requests, assignFrom_map_id]
  · intro k h
    unfold find_request
    rw [buildCache_requests]
    have hfind := assignFrom_find_eq ds 0 k h ((k : ℤ) + 1) (by push_cast; ring)
    simpa using hfind
  · intro i hi
    unfold find_request
    rw [buildCache_requests]
    apply assignFrom_find_none
    push_cast
    omega

/-- Witness for C3 on a concrete two-element cache. -/
theorem claim_C3_witness :
    find_request
        (buildCache
          [({ requested_at := "r1".data, since := "s1".data, timedelta_days := 3, vods := [] } : FetchData),
           ({ requested_at := "r2".data, since := "s2".data, timedelta_days := 5, vods := [] } : FetchData)])
        2 =
      some { id := 2, requested_at := "r2".data, since := "s2".data,
             timedelta_days := 5, vods := [] } :=
  (claim_C3_cache_ids
      [({ requested_at := "r1".data, since := "s1".data, timedelta_days := 3, vods := [] } : FetchData),
       ({ requested_at := "r2".data, since := "s2".data, timedelta_days := 5, vods := [] } : FetchData)]).2.1
    1 (by decide)

/-! Round-trip lemmas for the JSON encoding of the cache. -/

theorem vodOfJson_vodToJson (v : Vod) : vodOfJson (vodToJson v) = some v := rfl

theorem vodsOfJson_map (vs : List Vod) : vodsOfJson (vs.map vodToJson) = some vs := by
  induction vs with
  | nil => rfl
  | cons v vs ih =>
    have h : vodsOfJson (List.map vodToJson (v :: vs)) =
        (vodsOfJson (List.map vodToJson vs)).bind (fun xs => some (v :: xs)) := rfl
    rw [h, ih]
    rfl

theorem requestOfJson_requestToJson (r : CachedRequest) :
    requestOfJson (requestToJson r) = some r := by
  have h : requestOfJson (requestToJson r) =
      (vodsOfJson (r.vods.map vodToJson)).bind
        (fun vs => some { id := r.id, requested_at := r.requested_at,
                          since := r.since, timedelta_days := r.timedelta_days,
                          vods := vs }) := rfl
  rw [h, vodsOfJson_map]
  rfl

theorem requestsOfJson_map (rs : List CachedRequest) :
    requestsOfJson (rs.map requestToJson) = some rs := by
  induction rs with
  | nil => rfl
  | cons r rs ih =>
    have h : requestsOfJson (List.map requestToJson (r :: rs)) =
        (requestOfJson (requestToJson r)).bind
          (fun x => (requestsOfJson (List.map requestToJson rs)).bind
            (fun xs => some (x :: xs))) := rfl
    rw [h, requestOfJson_requestToJson]
    simp only [Option.some_bind]
    rw [ih]
    rfl

/-- C4: for every cache value, `save_cache` followed by `load_cache` recovers
a cache deep-equal to the original — the serialize-then-parse round-trip is
the identity on cache contents. -/
theorem claim_C4_cache_roundtrip :
    ∀ cache : Cache, load_cache (save_cache cache) = some cache := by
  intro cache
  have h : load_cache (save_cache cache) =
      (requestsOfJson (cache.requests.map requestToJson)).bind
        (fun rs => some { requests := rs }) := rfl
  rw [h, requestsOfJson_map]
  rfl
